import Mathlib

/-!
Verification of the minigrep line-search utility (src/src/lib.rs).

Strings are modelled as `List Char`; Rust's `str::contains` is substring
(infix) containment; `str::lines` is modelled by `rustLines`, which splits
on a newline character, strips a carriage return left at the end of a
newline-terminated segment, and drops the empty final segment produced by
a trailing newline.  Lowercasing models `str::to_lowercase`'s Unicode
full mapping: each character maps through the full per-character lowercase
mapping (one-to-many for U+0130), except capital sigma, which follows the
Final_Sigma context rule; the character-level tables are restricted to
the ASCII and Greek ranges plus the combining marks, other characters
being left unchanged.  The process environment and the file system are
passed to the relevant functions as explicit parameters.
-/

namespace Minigrep

/-- Strip one trailing carriage return from a newline-terminated segment,
as Rust's `str::lines` does for `\r\n` line endings. -/
def trimCr (l : List Char) : List Char :=
  if l.getLast? = some '\r' then l.dropLast else l

/-- Worker for `rustLines`: `cur` holds the current (reversed) segment. -/
def rustLinesAux : List Char → List Char → List (List Char)
  | cur, [] => if cur.isEmpty then [] else [cur.reverse]
  | cur, c :: rest =>
    if c = '\n' then trimCr cur.reverse :: rustLinesAux [] rest
    else rustLinesAux (c :: cur) rest

/-- Model of Rust's `str::lines`: split on `\n` (handling `\r\n`), with no
empty final line when the input ends in a newline. -/
def rustLines (contents : List Char) : List (List Char) :=
  rustLinesAux [] contents

/-- Unicode `Cased` property, restricted to the character ranges this
development uses: ASCII letters, Greek capital and small letters, and
U+0130.  Other characters are treated as not cased. -/
def isCased (c : Char) : Bool :=
  decide ((0x41 ≤ c.toNat ∧ c.toNat ≤ 0x5a) ∨
    (0x61 ≤ c.toNat ∧ c.toNat ≤ 0x7a) ∨
    (0x391 ≤ c.toNat ∧ c.toNat ≤ 0x3a9 ∧ c.toNat ≠ 0x3a2) ∨
    (0x3b1 ≤ c.toNat ∧ c.toNat ≤ 0x3c9) ∨
    c.toNat = 0x130)

/-- Unicode `Case_Ignorable` property, restricted to the combining
diacritical marks U+0300–U+036F; other characters are treated as not
case-ignorable. -/
def isCaseIgnorable (c : Char) : Bool :=
  decide (0x300 ≤ c.toNat ∧ c.toNat ≤ 0x36f)

/-- `case_ignorable_then_cased` from `str::to_lowercase`'s sigma handling:
skip case-ignorable characters, then test whether the next character is
cased. -/
def caseIgnorableThenCased (l : List Char) : Bool :=
  match l.dropWhile isCaseIgnorable with
  | [] => false
  | c :: _ => isCased c

/-- Unicode simple lowercase mapping, restricted to the ASCII and Greek
letter ranges; characters outside these ranges are returned unchanged. -/
def simpleLower (c : Char) : Char :=
  if (0x41 ≤ c.toNat ∧ c.toNat ≤ 0x5a) ∨
      (0x391 ≤ c.toNat ∧ c.toNat ≤ 0x3a9 ∧ c.toNat ≠ 0x3a2) then
    Char.ofNat (c.toNat + 0x20)
  else c

/-- `char::to_lowercase`, the unconditional full lowercase mapping of one
character: one-to-many for U+0130 ('İ' becomes "i" followed by combining
dot above), the simple mapping otherwise. -/
def rustCharLower (c : Char) : List Char :=
  if c = 'İ' then ['i', '\u0307'] else [simpleLower c]

/-- Worker for `toLowercase`: `revBefore` is the already-consumed prefix
in reverse, used by the Final_Sigma context test.  A capital sigma maps
to final sigma when preceded by a cased character (skipping
case-ignorables) and not followed by one; every other character maps
through `rustCharLower`. -/
def toLowercaseAux : List Char → List Char → List Char
  | _, [] => []
  | revBefore, c :: rest =>
    (if c = 'Σ' then
      if caseIgnorableThenCased revBefore && !(caseIgnorableThenCased rest)
      then ['ς'] else ['σ']
    else rustCharLower c) ++ toLowercaseAux (c :: revBefore) rest

/-- Model of `str::to_lowercase`: the Unicode full lowercase mapping with
the Final_Sigma rule. -/
def toLowercase (l : List Char) : List Char :=
  toLowercaseAux [] l

/-- `search` from src/src/lib.rs: keep the lines of `contents` containing
`query` as a contiguous substring, in order. -/
def search (query contents : List Char) : List (List Char) :=
  (rustLines contents).filter (fun line => decide (query <:+: line))

/-- `search_case_insensitive` from src/src/lib.rs: lowercase the query
once, then keep the lines whose lowercased text contains it. -/
def search_case_insensitive (query contents : List Char) : List (List Char) :=
  let q := toLowercase query
  (rustLines contents).filter (fun line => decide (q <:+: toLowercase line))

/-- The `Config` struct from src/src/lib.rs. -/
structure Config where
  query : String
  file_path : String
  ignore_case : Bool
  deriving Repr, DecidableEq

/-- `Config::build` from src/src/lib.rs.  `args` is the argument iterator
(program name first); `ignoreCaseVar` is the value of the `IGNORE_CASE`
environment variable when it is set.  The first argument is discarded,
the next two become `query` and `file_path`, anything further is never
read, and `ignore_case` records whether the variable is present. -/
def Config.build (args : List String) (ignoreCaseVar : Option String) :
    Except String Config :=
  match args.drop 1 with
  | [] => Except.error "Didn't get a query string"
  | query :: rest =>
    match rest with
    | [] => Except.error "Didn't get a file path"
    | file_path :: _ =>
      Except.ok { query := query, file_path := file_path,
                  ignore_case := ignoreCaseVar.isSome }

/-- `run` from src/src/lib.rs.  `fileSystem` models `fs::read_to_string`:
it maps a path to the file's contents or to an I/O error message, which
`run` propagates unchanged.  On success `run` returns the list of lines it
prints, in order. -/
def run (fileSystem : String → Except String (List Char)) (config : Config) :
    Except String (List (List Char)) :=
  match fileSystem config.file_path with
  | Except.error e => Except.error e
  | Except.ok contents =>
    Except.ok
      (if config.ignore_case then
        search_case_insensitive config.query.toList contents
      else
        search config.query.toList contents)

/-- Helper: `Config::build` on an argument list with at least three items
returns the second item as query and the third as file path; later items
and the stored environment value are never inspected. -/
theorem Config.build_three (p q f : String) (rest : List String)
    (v : Option String) :
    Config.build (p :: q :: f :: rest) v =
      Except.ok ⟨q, f, v.isSome⟩ := rfl

/-- Helper: over a segment without capital sigma, lowercasing is
context-free — it ignores the consumed prefix and the lookahead, and
splits off the segment's own lowercasing. -/
theorem toLowercaseAux_no_sigma :
    ∀ (xs : List Char), 'Σ' ∉ xs → ∀ (rev ys : List Char),
      toLowercaseAux rev (xs ++ ys) =
        toLowercase xs ++ toLowercaseAux (xs.reverse ++ rev) ys := by
  intro xs
  induction xs with
  | nil =>
    intro _ rev ys
    simp [toLowercase, toLowercaseAux]
  | cons c xs ih =>
    intro hxs rev ys
    simp only [List.mem_cons, not_or] at hxs
    obtain ⟨h1, h2⟩ := hxs
    have hc : ¬ c = 'Σ' := fun h => h1 h.symm
    have hstep : ∀ (r : List Char) (zs : List Char),
        toLowercaseAux r (c :: zs) =
          rustCharLower c ++ toLowercaseAux (c :: r) zs := by
      intro r zs
      simp only [toLowercaseAux]
      rw [if_neg hc]
    have hlow : toLowercase (c :: xs) =
        rustCharLower c ++ toLowercase xs := by
      rw [toLowercase, hstep]
      have := ih h2 [c] []
      rw [List.append_nil] at this
      rw [this]
      simp [toLowercaseAux]
    rw [List.cons_append, hstep, ih h2 (c :: rev) ys, hlow]
    simp [List.append_assoc]

/-- Helper: lowercasing a string with a prefix removed yields a suffix of
lowercasing the whole string: each consumed character contributes a block
at the front, whatever the sigma context decides. -/
theorem toLowercaseAux_suffix :
    ∀ (s rev rest : List Char),
      List.IsSuffix (toLowercaseAux (s.reverse ++ rev) rest)
        (toLowercaseAux rev (s ++ rest)) := by
  intro s
  induction s with
  | nil =>
    intro rev rest
    simp
  | cons c s ih =>
    intro rev rest
    have h1 := ih (c :: rev) rest
    have h2 : List.IsSuffix (toLowercaseAux (c :: rev) (s ++ rest))
        (toLowercaseAux rev ((c :: s) ++ rest)) := by
      simp only [List.cons_append, toLowercaseAux]
      exact List.suffix_append _ _
    have h3 := h1.trans h2
    simpa [List.append_assoc] using h3

/-- Helper: lowercasing preserves substring containment for a pattern
without capital sigma — the pattern's characters map context-freely, so
its lowercasing appears contiguously inside the host's. -/
theorem toLowercase_infix_of_no_sigma {q l : List Char}
    (hq : 'Σ' ∉ q) (h : q <:+: l) :
    toLowercase q <:+: toLowercase l := by
  obtain ⟨s, t, rfl⟩ := h
  rw [List.append_assoc]
  obtain ⟨A, hA⟩ := toLowercaseAux_suffix s [] (q ++ t)
  rw [toLowercaseAux_no_sigma q hq (s.reverse ++ []) t] at hA
  refine ⟨A, toLowercaseAux (q.reverse ++ (s.reverse ++ [])) t, ?_⟩
  conv_rhs => rw [toLowercase]
  rw [← hA, List.append_assoc]

/-- C1: a line is in `search query contents` exactly when it is one of the
lines of `contents` and contains `query` as a contiguous substring; lines
not containing `query` never appear. -/
theorem search_mem_iff (query contents line : List Char) :
    line ∈ search query contents ↔
      line ∈ rustLines contents ∧ query <:+: line := by
  simp [search, List.mem_filter]

/-- C1 witness at a concrete input. -/
theorem search_mem_iff_witness :
    ['d', 'u', 's', 't'] ∈
      search ['d', 'u'] ['d', 'u', 's', 't', '\n', 'r', 'o', 'c', 'k'] :=
  (search_mem_iff ['d', 'u'] ['d', 'u', 's', 't', '\n', 'r', 'o', 'c', 'k']
    ['d', 'u', 's', 't']).mpr ⟨by decide, ⟨[], ['s', 't'], by decide⟩⟩

/-- C2: a line is in `search_case_insensitive query contents` exactly when
it is one of the (original, non-lowercased) lines of `contents` whose
lowercasing contains the lowercased query as a substring. -/
theorem search_ci_mem_iff (query contents line : List Char) :
    line ∈ search_case_insensitive query contents ↔
      line ∈ rustLines contents ∧
        toLowercase query <:+: toLowercase line := by
  simp [search_case_insensitive, List.mem_filter]

/-- C2 witness at a concrete input. -/
theorem search_ci_mem_iff_witness :
    ['R', 'u', 's', 't'] ∈
      search_case_insensitive ['r', 'U'] ['R', 'u', 's', 't'] :=
  (search_ci_mem_iff ['r', 'U'] ['R', 'u', 's', 't']
    ['R', 'u', 's', 't']).mpr ⟨by decide, ⟨[], ['s', 't'], by decide⟩⟩

/-- C3: both search results are sublists of the lines of `contents`:
matched lines keep their original order, with no reordering and no
duplication. -/
theorem search_results_sublist_lines (query contents : List Char) :
    List.Sublist (search query contents) (rustLines contents) ∧
      List.Sublist (search_case_insensitive query contents)
        (rustLines contents) :=
  ⟨List.filter_sublist _, List.filter_sublist _⟩

/-- C4: with fewer than two positional arguments after the program name,
`Config::build` returns a static error message — one message when the
query is missing, a different one when the file path is missing. -/
theorem build_insufficient_args (args : List String) (v : Option String)
    (h : args.length ≤ 2) :
    Config.build args v =
      Except.error (if args.length ≤ 1 then "Didn't get a query string"
        else "Didn't get a file path") ∧
      "Didn't get a query string" ≠ ("Didn't get a file path" : String) := by
  refine ⟨?_, by decide⟩
  match args with
  | [] => rfl
  | [a] => rfl
  | [a, b] => rfl
  | a :: b :: c :: rest => exact absurd h (by simp)

/-- C4 witness: a single-item argument list is missing the query. -/
theorem build_insufficient_args_witness :
    Config.build ["minigrep"] none =
      Except.error (if (["minigrep"] : List String).length ≤ 1
        then "Didn't get a query string" else "Didn't get a file path") ∧
      "Didn't get a query string" ≠ ("Didn't get a file path" : String) :=
  build_insufficient_args ["minigrep"] none (by decide)

/-- C5: whenever `Config::build` succeeds, `ignore_case` is true exactly
when the `IGNORE_CASE` variable is present; the value carried by the
variable is never inspected — any two present values give the same
`Config`. -/
theorem build_ignore_case_presence :
    (∀ (args : List String) (v : Option String) (c : Config),
        Config.build args v = Except.ok c →
          (c.ignore_case = true ↔ v.isSome = true)) ∧
      (∀ (args : List String) (x y : String),
        Config.build args (some x) = Config.build args (some y)) := by
  constructor
  · intro args v c h
    match args with
    | [] => simp [Config.build] at h
    | [a] => simp [Config.build] at h
    | [a, q] => simp [Config.build] at h
    | a :: q :: f :: rest =>
      rw [Config.build_three] at h
      cases h
      simp
  · intro args x y
    match args with
    | [] => rfl
    | [a] => rfl
    | [a, q] => rfl
    | a :: q :: f :: rest => rfl

/-- C5 witness at a concrete input: an empty-valued variable enables
case-insensitive mode. -/
theorem build_ignore_case_presence_witness :
    (Config.ignore_case ⟨"q", "f", true⟩ = true ↔
      (some "" : Option String).isSome = true) :=
  build_ignore_case_presence.1 ["minigrep", "q", "f"] (some "")
    ⟨"q", "f", true⟩ rfl

/-- C6 counterexample: the query `"i\u{307}"` (two characters) is longer
than the single one-character line `"İ"`, yet `'İ'` lowercases to the
two-character `"i\u{307}"`, so the case-insensitive search still returns
that line — the claim fails for `search_case_insensitive`. -/
theorem search_query_longer_ci_counterexample :
    (∀ l ∈ rustLines ['İ'], l.length < (['i', '\u0307'] : List Char).length) ∧
      search_case_insensitive ['i', '\u0307'] ['İ'] = [['İ']] ∧
      search_case_insensitive ['i', '\u0307'] ['İ'] ≠ [] := by
  refine ⟨by decide, by decide, by decide⟩

/-- C6 (amended): when the query is longer than every line of `contents`,
`search` returns the empty result; when the lowercased query is longer
than the lowercasing of every line, `search_case_insensitive` returns the
empty result. -/
theorem search_query_longer_empty (query contents : List Char) :
    ((∀ l ∈ rustLines contents, l.length < query.length) →
      search query contents = []) ∧
      ((∀ l ∈ rustLines contents,
          (toLowercase l).length < (toLowercase query).length) →
        search_case_insensitive query contents = []) := by
  constructor
  · intro h
    rw [search, List.filter_eq_nil_iff]
    intro l hl
    simp only [decide_eq_true_eq]
    intro hinf
    exact Nat.lt_irrefl _
      (Nat.lt_of_le_of_lt (List.IsInfix.length_le hinf) (h l hl))
  · intro h
    rw [search_case_insensitive]
    rw [List.filter_eq_nil_iff]
    intro l hl
    simp only [decide_eq_true_eq]
    intro hinf
    exact Nat.lt_irrefl _
      (Nat.lt_of_le_of_lt (List.IsInfix.length_le hinf) (h l hl))

/-- C6 witness: a two-character query on a one-character line, where both
length hypotheses hold concretely. -/
theorem search_query_longer_empty_witness :
    search ['a', 'b'] ['x'] = [] ∧
      search_case_insensitive ['a', 'b'] ['x'] = [] :=
  ⟨(search_query_longer_empty ['a', 'b'] ['x']).1 (by decide),
    (search_query_longer_empty ['a', 'b'] ['x']).2 (by decide)⟩

/-- C7: the empty query matches every line, so both searches return all
lines of `contents`; on empty contents both return the empty result. -/
theorem search_empty_cases (query contents : List Char) :
    search [] contents = rustLines contents ∧
      search_case_insensitive [] contents = rustLines contents ∧
      search query [] = [] ∧
      search_case_insensitive query [] = [] := by
  refine ⟨?_, ?_, rfl, rfl⟩
  · rw [search, List.filter_eq_self]
    intro l _
    exact decide_eq_true ⟨[], l, rfl⟩
  · rw [search_case_insensitive]
    rw [List.filter_eq_self]
    intro l _
    exact decide_eq_true ⟨[], toLowercase l, rfl⟩

/-- C8: `run` fails with exactly the error produced by reading the file
at `config.file_path`, and otherwise prints the result of the search
selected by `ignore_case` (case-insensitive when true, case-sensitive
when false), returning success. -/
theorem run_spec (fileSystem : String → Except String (List Char))
    (config : Config) :
    (∀ e, run fileSystem config = Except.error e ↔
        fileSystem config.file_path = Except.error e) ∧
      (∀ contents, fileSystem config.file_path = Except.ok contents →
        run fileSystem config = Except.ok
          (if config.ignore_case then
            search_case_insensitive config.query.toList contents
          else search config.query.toList contents)) := by
  constructor
  · intro e
    cases hfs : fileSystem config.file_path with
    | error e' => simp [run, hfs]
    | ok contents => simp [run, hfs]
  · intro contents h
    simp [run, h]

/-- C8 witness at a concrete file system and config. -/
theorem run_spec_witness :
    run (fun _ => Except.ok ['a']) ⟨"a", "f", false⟩ =
      Except.ok
        (if (false : Bool) then
          search_case_insensitive (String.toList "a") ['a']
        else search (String.toList "a") ['a']) :=
  (run_spec (fun _ => Except.ok ['a']) ⟨"a", "f", false⟩).2 ['a'] rfl

/-- C9 counterexample: with query `"ΟΣ"` and contents `"ΟΣΒ"`, the
case-sensitive search matches the line, but the query's final sigma
lowercases to `'ς'` while the line's word-medial sigma lowercases to
`'σ'`, so the case-insensitive search returns nothing — `search` is not a
sublist of `search_case_insensitive`. -/
theorem search_not_sublist_ci_counterexample :
    search ['Ο', 'Σ'] ['Ο', 'Σ', 'Β'] = [['Ο', 'Σ', 'Β']] ∧
      search_case_insensitive ['Ο', 'Σ'] ['Ο', 'Σ', 'Β'] = [] ∧
      ¬ List.Sublist (search ['Ο', 'Σ'] ['Ο', 'Σ', 'Β'])
        (search_case_insensitive ['Ο', 'Σ'] ['Ο', 'Σ', 'Β']) := by
  have h1 : search ['Ο', 'Σ'] ['Ο', 'Σ', 'Β'] = [['Ο', 'Σ', 'Β']] := by
    decide
  have h2 : search_case_insensitive ['Ο', 'Σ'] ['Ο', 'Σ', 'Β'] = [] := by
    decide
  refine ⟨h1, h2, fun h => ?_⟩
  rw [h1, h2] at h
  simp at h

/-- C9 (amended): for a query not containing capital sigma — the one
character `str::to_lowercase` maps context-sensitively — every
case-sensitive match is also a case-insensitive match, in the same order:
`search` is a sublist of `search_case_insensitive`. -/
theorem search_sublist_search_ci (query contents : List Char)
    (h : 'Σ' ∉ query) :
    List.Sublist (search query contents)
      (search_case_insensitive query contents) := by
  rw [search, search_case_insensitive]
  apply List.monotone_filter_right
  intro l hl
  simp only [decide_eq_true_eq] at hl ⊢
  exact toLowercase_infix_of_no_sigma h hl

/-- C9 witness: a sigma-free query at a concrete input. -/
theorem search_sublist_search_ci_witness :
    List.Sublist (search ['a'] ['a', 'b'])
      (search_case_insensitive ['a'] ['a', 'b']) :=
  search_sublist_search_ci ['a'] ['a', 'b'] (by decide)

/-- C10: any argument list with at least three items builds successfully,
with query and file path taken from the second and third items; further
arguments are ignored and never cause an error. -/
theorem build_extra_args_ignored (p q f : String) (rest : List String)
    (v : Option String) :
    Config.build (p :: q :: f :: rest) v =
      Except.ok ⟨q, f, v.isSome⟩ := rfl

end Minigrep
